import Mathlib

/-!
Shallow embedding of `scripts/orb_nq.py`, an Opening Range Breakout (ORB)
intraday strategy evaluator for NQ futures.

Prices are modelled as rationals (the source uses Python floats but performs
only additions, subtractions, `max`/`min` and comparisons; the source's
`round(x, 2)` calls on recorded values are display formatting and are not
modelled — recorded values here are exact).  Timestamps are modelled as
integers (minutes of the exchange-local day); the source's ISO timestamp
strings are totally ordered the same way.  Python expressions that would raise
a `TypeError` (arithmetic or comparison on a `None` field) are modelled by
`Option.none` results, so a per-bar step returns `Option (state × emitted
trade)`.
-/

namespace OrbNq

/-- Configuration constants of `orb_nq.py` (module-level constants). -/
structure Config where
  OFFSET_POINTS : ℚ
  TRAIL_DISTANCE_POINTS : ℚ
  TAKE_PROFIT_POINTS : ℚ
  BREAKEVEN_TRIGGER_POINTS : ℚ
  POINT_VALUE : ℚ
deriving DecidableEq, Repr

/-- The concrete constants of the source file. -/
def nqConfig : Config :=
  { OFFSET_POINTS := 2
    TRAIL_DISTANCE_POINTS := 15
    TAKE_PROFIT_POINTS := 20
    BREAKEVEN_TRIGGER_POINTS := 15
    POINT_VALUE := 20 }

def OPENING_RANGE_MINUTES : ℤ := 15

def TRADING_WINDOW_MINUTES : ℤ := 390

/-- Session boundaries, in minutes of the exchange-local day
(`session_times` in the source). -/
structure Times where
  session_open : ℤ
  orb_end : ℤ
  trade_start : ℤ
  trade_end : ℤ
deriving DecidableEq, Repr

/-- `session_times`: regular session 9:30-16:00 ET (570 and 960 minutes after
midnight), opening range of `OPENING_RANGE_MINUTES`, trading window of
`TRADING_WINDOW_MINUTES` clamped to the session close. -/
def session_times : Times :=
  { session_open := 570
    orb_end := 570 + OPENING_RANGE_MINUTES
    trade_start := 570 + OPENING_RANGE_MINUTES
    trade_end := min (570 + TRADING_WINDOW_MINUTES) 960 }

/-- One OHLC candle (a row of the intraday dataframe). -/
structure Bar where
  ts : ℤ
  o : ℚ
  h : ℚ
  l : ℚ
  c : ℚ
deriving DecidableEq, Repr

/-- Result of `compute_opening_range`. -/
structure OpeningRange where
  high : ℚ
  low : ℚ
deriving DecidableEq, Repr

/-- The derived breakout levels (`long_level` / `short_level` in `main`). -/
structure Levels where
  long_level : ℚ
  short_level : ℚ
deriving DecidableEq, Repr

def levelsOf (cfg : Config) (orb : OpeningRange) : Levels :=
  { long_level := orb.high + cfg.OFFSET_POINTS
    short_level := orb.low - cfg.OFFSET_POINTS }

/-- The `TradeState` dataclass. -/
structure TradeState where
  session_date : String
  trade_executed : Bool := false
  trade_open : Bool := false
  direction : Option String := none
  entry_time : Option ℤ := none
  entry_price : Option ℚ := none
  stop_price : Option ℚ := none
  watermark_price : Option ℚ := none
  be_triggered : Bool := false
  last_processed_ts : Option ℤ := none
deriving DecidableEq, Repr

/-- A fresh `TradeState` for a session date (dataclass defaults, as produced
by `load_state` when no state file exists). -/
def initState (d : String) : TradeState :=
  { session_date := d }

/-- The row written by `append_trade_log` / consumed by `update_summary`
(a completed-trade event). -/
structure CompletedTrade where
  date : String
  direction : String
  entry_time : Option ℤ
  entry_price : ℚ
  exit_time : ℤ
  exit_price : ℚ
  pnl_points : ℚ
  pnl_usd : ℚ
  exit_reason : String
deriving DecidableEq, Repr

/-- `within(dt, a, b)`: `a <= dt <= b`. -/
def within (dt a b : ℤ) : Prop :=
  a ≤ dt ∧ dt ≤ b

instance (dt a b : ℤ) : Decidable (within dt a b) := by
  unfold within; infer_instance

/-- `compute_opening_range`: bars with `open_ts ≤ ts < orb_end`; `none` when
that set is empty, else the max high / min low. -/
def compute_opening_range (bars : List Bar) (open_ts orb_end : ℤ) :
    Option OpeningRange :=
  match bars.filter (fun b => decide (open_ts ≤ b.ts ∧ b.ts < orb_end)) with
  | [] => none
  | b :: bs =>
    some { high := bs.foldl (fun m x => max m x.h) b.h
           low := bs.foldl (fun m x => min m x.l) b.l }

/-- Long entry at the candle close (source lines 261-270). -/
def longEntry (cfg : Config) (st : TradeState) (b : Bar) : TradeState :=
  { st with trade_open := true, trade_executed := true, direction := some "long",
            entry_time := some b.ts, entry_price := some b.c,
            watermark_price := some b.c,
            stop_price := some (b.c - cfg.TRAIL_DISTANCE_POINTS),
            be_triggered := false }

/-- Short entry at the candle close (source lines 271-280). -/
def shortEntry (cfg : Config) (st : TradeState) (b : Bar) : TradeState :=
  { st with trade_open := true, trade_executed := true, direction := some "short",
            entry_time := some b.ts, entry_price := some b.c,
            watermark_price := some b.c,
            stop_price := some (b.c + cfg.TRAIL_DISTANCE_POINTS),
            be_triggered := false }

/-- Entry logic (source lines 260-280): only when no trade is open, none has
executed this session, and `ts >= trade_start`; the long check is evaluated
before the short check. -/
def entryStep (cfg : Config) (lv : Levels) (tm : Times) (st : TradeState)
    (b : Bar) : TradeState :=
  if st.trade_open = false ∧ st.trade_executed = false ∧ tm.trade_start ≤ b.ts then
    if lv.long_level ≤ b.h then longEntry cfg st b
    else if b.l ≤ lv.short_level then shortEntry cfg st b
    else st
  else st

/-- Watermark update for a long (`if h > st.watermark_price`). -/
def longWm (wm0 h : ℚ) : ℚ :=
  if wm0 < h then h else wm0

/-- Watermark update for a short (`if l < st.watermark_price`). -/
def shortWm (wm0 l : ℚ) : ℚ :=
  if l < wm0 then l else wm0

/-- Break-even trigger condition for a long (source line 295). -/
def longBeHit (cfg : Config) (st1 : TradeState) (entry wm : ℚ) : Prop :=
  st1.be_triggered = false ∧ cfg.BREAKEVEN_TRIGGER_POINTS ≤ wm - entry

instance (cfg : Config) (st1 : TradeState) (entry wm : ℚ) :
    Decidable (longBeHit cfg st1 entry wm) := by
  unfold longBeHit; infer_instance

/-- Break-even trigger condition for a short (source line 336). -/
def shortBeHit (cfg : Config) (st1 : TradeState) (entry wm : ℚ) : Prop :=
  st1.be_triggered = false ∧ cfg.BREAKEVEN_TRIGGER_POINTS ≤ entry - wm

instance (cfg : Config) (st1 : TradeState) (entry wm : ℚ) :
    Decidable (shortBeHit cfg st1 entry wm) := by
  unfold shortBeHit; infer_instance

/-- The stop after the trailing update (line 293) and break-even move
(line 296) for a long, given the already-updated watermark `wm`. -/
def longStop2 (cfg : Config) (st1 : TradeState) (entry wm stop0 : ℚ) : ℚ :=
  if longBeHit cfg st1 entry wm then
    max (max stop0 (wm - cfg.TRAIL_DISTANCE_POINTS)) entry
  else
    max stop0 (wm - cfg.TRAIL_DISTANCE_POINTS)

/-- The stop after the trailing update (line 335) and break-even move
(line 337) for a short. -/
def shortStop2 (cfg : Config) (st1 : TradeState) (entry wm stop0 : ℚ) : ℚ :=
  if shortBeHit cfg st1 entry wm then
    min (min stop0 (wm + cfg.TRAIL_DISTANCE_POINTS)) entry
  else
    min stop0 (wm + cfg.TRAIL_DISTANCE_POINTS)

/-- The `be_triggered` flag after the bar, long side. -/
def longBe2 (cfg : Config) (st1 : TradeState) (entry wm : ℚ) : Bool :=
  if longBeHit cfg st1 entry wm then true else st1.be_triggered

/-- The `be_triggered` flag after the bar, short side. -/
def shortBe2 (cfg : Config) (st1 : TradeState) (entry wm : ℚ) : Bool :=
  if shortBeHit cfg st1 entry wm then true else st1.be_triggered

/-- The `row_out` record built on a long exit (source lines 315-325);
`pnl_points = exit_price - entry`. -/
def mkTradeLong (st1 : TradeState) (b : Bar) (entry ep : ℚ) (reason : String)
    (cfg : Config) : CompletedTrade :=
  { date := st1.session_date, direction := "long", entry_time := st1.entry_time,
    entry_price := entry, exit_time := b.ts, exit_price := ep,
    pnl_points := ep - entry, pnl_usd := (ep - entry) * cfg.POINT_VALUE,
    exit_reason := reason }

/-- The `row_out` record built on a short exit (source lines 355-365);
`pnl_points = entry - exit_price`. -/
def mkTradeShort (st1 : TradeState) (b : Bar) (entry ep : ℚ) (reason : String)
    (cfg : Config) : CompletedTrade :=
  { date := st1.session_date, direction := "short", entry_time := st1.entry_time,
    entry_price := entry, exit_time := b.ts, exit_price := ep,
    pnl_points := entry - ep, pnl_usd := (entry - ep) * cfg.POINT_VALUE,
    exit_reason := reason }

/-- The state after a bar while the trade stays open: updated watermark, stop
and break-even flag, `last_processed_ts` advanced. -/
def openUpdate (st1 : TradeState) (b : Bar) (wm stop2 : ℚ) (be2 : Bool) :
    TradeState :=
  { st1 with watermark_price := some wm, stop_price := some stop2,
             be_triggered := be2, last_processed_ts := some b.ts }

/-- The state after an exit: as `openUpdate` but `trade_open := false` and
`direction := none` (source lines 328-329; the watermark and stop fields are
not cleared). -/
def closeUpdate (st1 : TradeState) (b : Bar) (wm stop2 : ℚ) (be2 : Bool) :
    TradeState :=
  { st1 with watermark_price := some wm, stop_price := some stop2,
             be_triggered := be2, trade_open := false, direction := none,
             last_processed_ts := some b.ts }

/-- Exit checks for a long, in source order (lines 298-310): take-profit
first, then the (already updated) stop, then end-of-day. -/
def longFinish (cfg : Config) (tm : Times) (st1 : TradeState) (b : Bar)
    (entry wm stop2 : ℚ) (be2 : Bool) : TradeState × Option CompletedTrade :=
  if entry + cfg.TAKE_PROFIT_POINTS ≤ b.h then
    (closeUpdate st1 b wm stop2 be2,
     some (mkTradeLong st1 b entry (entry + cfg.TAKE_PROFIT_POINTS) "TP" cfg))
  else if b.l ≤ stop2 then
    (closeUpdate st1 b wm stop2 be2,
     some (mkTradeLong st1 b entry stop2 "TrailingStop" cfg))
  else if tm.trade_end ≤ b.ts then
    (closeUpdate st1 b wm stop2 be2,
     some (mkTradeLong st1 b entry b.c "EOD" cfg))
  else
    (openUpdate st1 b wm stop2 be2, none)

/-- Exit checks for a short, in source order (lines 339-350). -/
def shortFinish (cfg : Config) (tm : Times) (st1 : TradeState) (b : Bar)
    (entry wm stop2 : ℚ) (be2 : Bool) : TradeState × Option CompletedTrade :=
  if b.l ≤ entry - cfg.TAKE_PROFIT_POINTS then
    (closeUpdate st1 b wm stop2 be2,
     some (mkTradeShort st1 b entry (entry - cfg.TAKE_PROFIT_POINTS) "TP" cfg))
  else if stop2 ≤ b.h then
    (closeUpdate st1 b wm stop2 be2,
     some (mkTradeShort st1 b entry stop2 "TrailingStop" cfg))
  else if tm.trade_end ≤ b.ts then
    (closeUpdate st1 b wm stop2 be2,
     some (mkTradeShort st1 b entry b.c "EOD" cfg))
  else
    (openUpdate st1 b wm stop2 be2, none)

/-- Management of an open long for one bar (source lines 287-329). -/
def manageLong (cfg : Config) (tm : Times) (st1 : TradeState) (b : Bar)
    (entry wm0 stop0 : ℚ) : TradeState × Option CompletedTrade :=
  longFinish cfg tm st1 b entry (longWm wm0 b.h)
    (longStop2 cfg st1 entry (longWm wm0 b.h) stop0)
    (longBe2 cfg st1 entry (longWm wm0 b.h))

/-- Management of an open short for one bar (source lines 331-369). -/
def manageShort (cfg : Config) (tm : Times) (st1 : TradeState) (b : Bar)
    (entry wm0 stop0 : ℚ) : TradeState × Option CompletedTrade :=
  shortFinish cfg tm st1 b entry (shortWm wm0 b.l)
    (shortStop2 cfg st1 entry (shortWm wm0 b.l) stop0)
    (shortBe2 cfg st1 entry (shortWm wm0 b.l))

/-- The `if st.trade_open:` block (source lines 283-369).  `entry =
float(st.entry_price)` raises on `None` (modelled by `none`); each direction
branch then reads `watermark_price` and `stop_price` (raising on `None`); a
direction that is neither `"long"` nor `"short"` falls through with no
management.  All paths then set `last_processed_ts` (line 371). -/
def manageStep (cfg : Config) (tm : Times) (st1 : TradeState) (b : Bar) :
    Option (TradeState × Option CompletedTrade) :=
  if st1.trade_open = true then
    match st1.entry_price with
    | none => none
    | some entry =>
      if st1.direction = some "long" then
        match st1.watermark_price, st1.stop_price with
        | some wm0, some stop0 => some (manageLong cfg tm st1 b entry wm0 stop0)
        | some _, none => none
        | none, _ => none
      else if st1.direction = some "short" then
        match st1.watermark_price, st1.stop_price with
        | some wm0, some stop0 => some (manageShort cfg tm st1 b entry wm0 stop0)
        | some _, none => none
        | none, _ => none
      else
        some ({ st1 with last_processed_ts := some b.ts }, none)
  else
    some ({ st1 with last_processed_ts := some b.ts }, none)

/-- One iteration of the candle loop (source lines 250-371): skip bars outside
the trading window (still advancing `last_processed_ts`), otherwise run entry
logic then management of an open trade on the same bar. -/
def stepBar (cfg : Config) (lv : Levels) (tm : Times) (st : TradeState)
    (b : Bar) : Option (TradeState × Option CompletedTrade) :=
  if within b.ts tm.trade_start tm.trade_end ∨
      (st.trade_open = true ∧ b.ts ≤ tm.trade_end) then
    manageStep cfg tm (entryStep cfg lv tm st b) b
  else
    some ({ st with last_processed_ts := some b.ts }, none)

/-- The candle loop over a list of bars, collecting emitted completed
trades. -/
def processBars (cfg : Config) (lv : Levels) (tm : Times) :
    TradeState → List Bar → Option (TradeState × List CompletedTrade)
  | st, [] => some (st, [])
  | st, b :: bs =>
    match stepBar cfg lv tm st b with
    | none => none
    | some (st1, ot) =>
      match processBars cfg lv tm st1 bs with
      | none => none
      | some (st2, ts2) => some (st2, ot.toList ++ ts2)

/-- The `process_mask` selection (source lines 234-247): bars strictly newer
than a parseable `last_processed_ts`, else all bars from the session open. -/
def selectBars (tm : Times) (st : TradeState) (bars : List Bar) : List Bar :=
  match st.last_processed_ts with
  | some t => bars.filter (fun b => decide (t < b.ts))
  | none => bars.filter (fun b => decide (tm.session_open ≤ b.ts))

/-- One invocation's bar processing: select the unprocessed candles and fold
the per-bar step over them. -/
def advance (cfg : Config) (lv : Levels) (tm : Times) (st : TradeState)
    (bars : List Bar) : Option (TradeState × List CompletedTrade) :=
  processBars cfg lv tm st (selectBars tm st bars)

/-- File-system effects of one run of `main`, in order.  `write_latest`
carries the snapshot status and reason. -/
inductive Effect where
  | write_latest (status : String) (reason : String)
  | save_state (st : TradeState)
  | append_trade_log (t : CompletedTrade)
  | write_summary (t : CompletedTrade)
  | write_intraday
deriving DecidableEq, Repr

/-- Control flow of `main` (source lines 186-449) as the list of effects it
performs: the weekend guard, the no-data guard, the pre-ORB branch (which
saves the unchanged state), and the active path (per-trade log and summary
writes, then the snapshot, state save and intraday export).  A `none` result
models an uncaught exception aborting the run. -/
def runMain (cfg : Config) (tm : Times) (weekday : ℤ) (bars : List Bar)
    (st : TradeState) : Option (List Effect) :=
  if 4 < weekday then
    some [Effect.write_latest "inactive" "weekend"]
  else if bars = [] then
    some [Effect.write_latest "error" "no_data"]
  else
    match compute_opening_range bars tm.session_open tm.orb_end with
    | none => some [Effect.write_latest "pre_orb" "", Effect.save_state st]
    | some orb =>
      match advance cfg (levelsOf cfg orb) tm st bars with
      | none => none
      | some (st2, trades) =>
        some ((trades.foldr
                (fun t acc => Effect.append_trade_log t :: Effect.write_summary t :: acc)
                []) ++
              [Effect.write_latest "active" "", Effect.save_state st2,
               Effect.write_intraday])

/-- A row of the rolling summary built by `update_summary` (lines 141-153). -/
structure SummaryRow where
  date : String
  direction : String
  entry_time : Option ℤ
  entry_price : ℚ
  exit_time : ℤ
  exit_price : ℚ
  pnl_points : ℚ
  pnl_usd : ℚ
  win : ℕ
deriving DecidableEq, Repr

/-- The new summary row for a completed trade: `win = 1 if pnl_points > 0
else 0` (source line 151). -/
def summary_row (row : CompletedTrade) : SummaryRow :=
  { date := row.date, direction := row.direction, entry_time := row.entry_time,
    entry_price := row.entry_price, exit_time := row.exit_time,
    exit_price := row.exit_price, pnl_points := row.pnl_points,
    pnl_usd := row.pnl_usd,
    win := if 0 < row.pnl_points then 1 else 0 }

/-- The aggregate winrate (`float(cur["win"].mean()) if len(cur) else None`,
source line 173). -/
def winrate (rows : List SummaryRow) : Option ℚ :=
  if rows.length = 0 then none
  else some ((rows.map (fun r => (r.win : ℚ))).sum / (rows.length : ℚ))

/-! ### Concrete data used by witnesses and counterexamples -/

/-- An example opening range. -/
def exOrb : OpeningRange := { high := 100, low := 90 }

/-- Levels derived from `exOrb` under the source constants:
`long_level = 102`, `short_level = 88`. -/
def exLevels : Levels := levelsOf nqConfig exOrb

/-- A bar that breaks out long (`h ≥ 102`) and whose high also satisfies the
take-profit condition relative to its own close. -/
def exBar : Bar := { ts := 600, o := 101, h := 130, l := 100, c := 105 }

/-- An open long position: entry 100, stop 85, watermark 100. -/
def exOpenLong : TradeState :=
  { session_date := "", trade_executed := true, trade_open := true,
    direction := some "long", entry_time := some 600, entry_price := some 100,
    stop_price := some 85, watermark_price := some 100, be_triggered := false,
    last_processed_ts := some 600 }

/-- An open short position: entry 100, stop 115, watermark 100. -/
def exOpenShort : TradeState :=
  { session_date := "", trade_executed := true, trade_open := true,
    direction := some "short", entry_time := some 600, entry_price := some 100,
    stop_price := some 115, watermark_price := some 100, be_triggered := false,
    last_processed_ts := some 600 }

/-- A bar on which both the take-profit condition (`h = 121 ≥ 120`) and the
stop condition (`l = 84 ≤ 85`) hold for `exOpenLong`. -/
def exBarBoth : Bar := { ts := 610, o := 100, h := 121, l := 84, c := 90 }

/-- A favorable bar that keeps the long open (no exit condition hits). -/
def exBarHold : Bar := { ts := 610, o := 100, h := 110, l := 96, c := 108 }

/-- A completed trade with exactly zero P&L (breakeven-stop exit at the entry
price). -/
def exTradeZero : CompletedTrade :=
  { date := "", direction := "long", entry_time := some 600, entry_price := 100,
    exit_time := 650, exit_price := 100, pnl_points := 0, pnl_usd := 0,
    exit_reason := "TrailingStop" }

/-- The state after processing `exBar` from a fresh state: the long entered at
105 and exited at take-profit 125 on the same bar; note `watermark_price`
remains set after the close. -/
def exClosedState : TradeState :=
  { session_date := "", trade_executed := true, trade_open := false,
    direction := none, entry_time := some 600, entry_price := some 105,
    stop_price := some 115, watermark_price := some 130, be_triggered := true,
    last_processed_ts := some 600 }

/-- The trade emitted while processing `exBar` from a fresh state. -/
def exTrade : CompletedTrade :=
  { date := "", direction := "long", entry_time := some 600, entry_price := 105,
    exit_time := 600, exit_price := 125, pnl_points := 20, pnl_usd := 400,
    exit_reason := "TP" }

/-! ### Case-analysis lemmas for the per-bar step -/

lemma entryStep_cases (cfg : Config) (lv : Levels) (tm : Times)
    (st : TradeState) (b : Bar) :
    entryStep cfg lv tm st b = st ∨
    (st.trade_open = false ∧ st.trade_executed = false ∧
      (entryStep cfg lv tm st b = longEntry cfg st b ∨
       entryStep cfg lv tm st b = shortEntry cfg st b)) := by
  unfold entryStep
  split_ifs with h1 h2 h3
  · exact Or.inr ⟨h1.1, h1.2.1, Or.inl rfl⟩
  · exact Or.inr ⟨h1.1, h1.2.1, Or.inr rfl⟩
  · exact Or.inl rfl
  · exact Or.inl rfl

lemma entryStep_no_entry (cfg : Config) (lv : Levels) (tm : Times)
    (st : TradeState) (b : Bar)
    (h : st.trade_open = true ∨ st.trade_executed = true) :
    entryStep cfg lv tm st b = st := by
  unfold entryStep
  rw [if_neg]
  rintro ⟨h1, h2, -⟩
  rcases h with h | h
  · rw [h1] at h; cases h
  · rw [h2] at h; cases h

lemma manageLong_split (cfg : Config) (tm : Times) (st0 : TradeState) (b : Bar)
    (e w0 s0 : ℚ) :
    (∃ t, manageLong cfg tm st0 b e w0 s0 =
        (closeUpdate st0 b (longWm w0 b.h)
          (longStop2 cfg st0 e (longWm w0 b.h) s0)
          (longBe2 cfg st0 e (longWm w0 b.h)), some t)) ∨
    manageLong cfg tm st0 b e w0 s0 =
      (openUpdate st0 b (longWm w0 b.h)
        (longStop2 cfg st0 e (longWm w0 b.h) s0)
        (longBe2 cfg st0 e (longWm w0 b.h)), none) := by
  unfold manageLong longFinish
  split_ifs with h1 h2 h3
  · exact Or.inl ⟨_, rfl⟩
  · exact Or.inl ⟨_, rfl⟩
  · exact Or.inl ⟨_, rfl⟩
  · exact Or.inr rfl

lemma manageShort_split (cfg : Config) (tm : Times) (st0 : TradeState) (b : Bar)
    (e w0 s0 : ℚ) :
    (∃ t, manageShort cfg tm st0 b e w0 s0 =
        (closeUpdate st0 b (shortWm w0 b.l)
          (shortStop2 cfg st0 e (shortWm w0 b.l) s0)
          (shortBe2 cfg st0 e (shortWm w0 b.l)), some t)) ∨
    manageShort cfg tm st0 b e w0 s0 =
      (openUpdate st0 b (shortWm w0 b.l)
        (shortStop2 cfg st0 e (shortWm w0 b.l) s0)
        (shortBe2 cfg st0 e (shortWm w0 b.l)), none) := by
  unfold manageShort shortFinish
  split_ifs with h1 h2 h3
  · exact Or.inl ⟨_, rfl⟩
  · exact Or.inl ⟨_, rfl⟩
  · exact Or.inl ⟨_, rfl⟩
  · exact Or.inr rfl

lemma manageLong_tp (cfg : Config) (tm : Times) (st0 : TradeState) (b : Bar)
    (e w0 s0 : ℚ) (h : e + cfg.TAKE_PROFIT_POINTS ≤ b.h) :
    manageLong cfg tm st0 b e w0 s0 =
      (closeUpdate st0 b (longWm w0 b.h)
        (longStop2 cfg st0 e (longWm w0 b.h) s0)
        (longBe2 cfg st0 e (longWm w0 b.h)),
       some (mkTradeLong st0 b e (e + cfg.TAKE_PROFIT_POINTS) "TP" cfg)) := by
  unfold manageLong longFinish
  rw [if_pos h]

lemma manageShort_tp (cfg : Config) (tm : Times) (st0 : TradeState) (b : Bar)
    (e w0 s0 : ℚ) (h : b.l ≤ e - cfg.TAKE_PROFIT_POINTS) :
    manageShort cfg tm st0 b e w0 s0 =
      (closeUpdate st0 b (shortWm w0 b.l)
        (shortStop2 cfg st0 e (shortWm w0 b.l) s0)
        (shortBe2 cfg st0 e (shortWm w0 b.l)),
       some (mkTradeShort st0 b e (e - cfg.TAKE_PROFIT_POINTS) "TP" cfg)) := by
  unfold manageShort shortFinish
  rw [if_pos h]

lemma le_longStop2 (cfg : Config) (st0 : TradeState) (e wm s0 : ℚ) :
    s0 ≤ longStop2 cfg st0 e wm s0 := by
  unfold longStop2
  split_ifs
  · exact le_trans (le_max_left _ _) (le_max_left _ _)
  · exact le_max_left _ _

lemma shortStop2_le (cfg : Config) (st0 : TradeState) (e wm s0 : ℚ) :
    shortStop2 cfg st0 e wm s0 ≤ s0 := by
  unfold shortStop2
  split_ifs
  · exact le_trans (min_le_left _ _) (min_le_left _ _)
  · exact min_le_left _ _

lemma manageStep_rcases (cfg : Config) (tm : Times) (st0 : TradeState) (b : Bar)
    (st1 : TradeState) (ot : Option CompletedTrade)
    (h : manageStep cfg tm st0 b = some (st1, ot)) :
    ((st1, ot) = ({ st0 with last_processed_ts := some b.ts }, none) ∧
      (st0.trade_open = false ∨
       (st0.direction ≠ some "long" ∧ st0.direction ≠ some "short"))) ∨
    (∃ e w0 s0, st0.trade_open = true ∧ st0.direction = some "long" ∧
      st0.entry_price = some e ∧ st0.watermark_price = some w0 ∧
      st0.stop_price = some s0 ∧
      (st1, ot) = manageLong cfg tm st0 b e w0 s0) ∨
    (∃ e w0 s0, st0.trade_open = true ∧ st0.direction = some "short" ∧
      st0.entry_price = some e ∧ st0.watermark_price = some w0 ∧
      st0.stop_price = some s0 ∧
      (st1, ot) = manageShort cfg tm st0 b e w0 s0) := by
  unfold manageStep at h
  by_cases hopen : st0.trade_open = true
  · rw [if_pos hopen] at h
    cases hep : st0.entry_price with
    | none => rw [hep] at h; simp at h
    | some e =>
      rw [hep] at h
      simp only [] at h
      by_cases hdl : st0.direction = some "long"
      · rw [if_pos hdl] at h
        cases hwm : st0.watermark_price with
        | none => rw [hwm] at h; simp at h
        | some w0 =>
          rw [hwm] at h
          cases hsp : st0.stop_price with
          | none => rw [hsp] at h; simp at h
          | some s0 =>
            rw [hsp] at h
            simp only [Option.some.injEq] at h
            exact Or.inr (Or.inl ⟨e, w0, s0, hopen, hdl, rfl, rfl, rfl, h.symm⟩)
      · rw [if_neg hdl] at h
        by_cases hds : st0.direction = some "short"
        · rw [if_pos hds] at h
          cases hwm : st0.watermark_price with
          | none => rw [hwm] at h; simp at h
          | some w0 =>
            rw [hwm] at h
            cases hsp : st0.stop_price with
            | none => rw [hsp] at h; simp at h
            | some s0 =>
              rw [hsp] at h
              simp only [Option.some.injEq] at h
              exact Or.inr (Or.inr ⟨e, w0, s0, hopen, hds, rfl, rfl, rfl, h.symm⟩)
        · rw [if_neg hds] at h
          simp only [Option.some.injEq] at h
          exact Or.inl ⟨h.symm, Or.inr ⟨hdl, hds⟩⟩
  · rw [if_neg hopen] at h
    simp only [Option.some.injEq] at h
    exact Or.inl ⟨h.symm, Or.inl (by revert hopen; cases st0.trade_open <;> simp)⟩

lemma stepBar_some_cases (cfg : Config) (lv : Levels) (tm : Times)
    (st : TradeState) (b : Bar) (st1 : TradeState) (ot : Option CompletedTrade)
    (h : stepBar cfg lv tm st b = some (st1, ot)) :
    (st1, ot) = ({ st with last_processed_ts := some b.ts }, none) ∨
    manageStep cfg tm (entryStep cfg lv tm st b) b = some (st1, ot) := by
  unfold stepBar at h
  split_ifs at h with hw
  · exact Or.inr h
  · simp only [Option.some.injEq] at h
    exact Or.inl h.symm

lemma processBars_nil (cfg : Config) (lv : Levels) (tm : Times)
    (st : TradeState) : processBars cfg lv tm st [] = some (st, []) := rfl

lemma processBars_cons (cfg : Config) (lv : Levels) (tm : Times)
    (st : TradeState) (b : Bar) (bs : List Bar) :
    processBars cfg lv tm st (b :: bs) =
      match stepBar cfg lv tm st b with
      | none => none
      | some (st1, ot) =>
        match processBars cfg lv tm st1 bs with
        | none => none
        | some (st2, ts2) => some (st2, ot.toList ++ ts2) := rfl

lemma processBars_cons_elim (cfg : Config) (lv : Levels) (tm : Times)
    (st : TradeState) (b : Bar) (bs : List Bar) (st2 : TradeState)
    (tr : List CompletedTrade)
    (h : processBars cfg lv tm st (b :: bs) = some (st2, tr)) :
    ∃ st1 ot ts2, stepBar cfg lv tm st b = some (st1, ot) ∧
      processBars cfg lv tm st1 bs = some (st2, ts2) ∧ tr = ot.toList ++ ts2 := by
  rw [processBars_cons] at h
  split at h
  next hstep => exact absurd h (by simp)
  next st1 ot hstep =>
    split at h
    next hrec => exact absurd h (by simp)
    next st2a ts2 hrec =>
      simp only [Option.some.injEq, Prod.mk.injEq] at h
      exact ⟨st1, ot, ts2, hstep, by rw [hrec, h.1], h.2.symm⟩

lemma stepBar_exBar_eval :
    stepBar nqConfig exLevels session_times (initState "") exBar =
      some (exClosedState, some exTrade) := by
  norm_num [stepBar, manageStep, entryStep, longEntry, manageLong, longFinish,
    longWm, longStop2, longBe2, longBeHit, closeUpdate, mkTradeLong, within,
    initState, exBar, exLevels, exOrb, levelsOf, nqConfig, session_times,
    OPENING_RANGE_MINUTES, TRADING_WINDOW_MINUTES, exClosedState, exTrade]

lemma processBars_exBar_eval :
    processBars nqConfig exLevels session_times (initState "") [exBar] =
      some (exClosedState, [exTrade]) := by
  rw [processBars_cons, stepBar_exBar_eval]
  rfl

/-! ### Claim C1 -/

/-- Claim C1 is false on the code; counterexample: from a fresh state, the bar
`exBar` (high 130, close 105) triggers a long entry (`trade_executed` flips
from `false` to `true`) and the same bar's processing also emits a
`CompletedTrade` with reason `"TP"`, because management of the open trade runs
immediately after entry within the same loop iteration. -/
theorem entry_bar_close_cex :
    (initState "").trade_open = false ∧ (initState "").trade_executed = false ∧
    (stepBar nqConfig exLevels session_times (initState "") exBar).map
        (fun r => (r.1.trade_executed, r.2.map (fun t => t.exit_reason))) =
      some (true, some "TP") := by
  refine ⟨rfl, rfl, ?_⟩
  rw [stepBar_exBar_eval]
  rfl

/-- Claim C1 (amended): on a bar that triggers an entry, position management
runs on that same bar, so the entry bar itself can close the trade; in
particular a long entry whose bar high reaches the take-profit level relative
to the entry close (`h ≥ c + takeProfit`) exits on the entry bar with reason
`"TP"` at `c + takeProfit`. -/
theorem entry_bar_also_managed (cfg : Config) (lv : Levels) (tm : Times)
    (st : TradeState) (b : Bar)
    (hopen : st.trade_open = false) (hexec : st.trade_executed = false)
    (h1 : tm.trade_start ≤ b.ts) (h2 : b.ts ≤ tm.trade_end)
    (hlev : lv.long_level ≤ b.h) (htp : b.c + cfg.TAKE_PROFIT_POINTS ≤ b.h) :
    (stepBar cfg lv tm st b).map
        (fun r => (r.1.trade_executed, r.1.trade_open,
                   r.2.map (fun t => (t.exit_reason, t.exit_price)))) =
      some (true, false, some ("TP", b.c + cfg.TAKE_PROFIT_POINTS)) := by
  have hwin : within b.ts tm.trade_start tm.trade_end ∨
      (st.trade_open = true ∧ b.ts ≤ tm.trade_end) := Or.inl ⟨h1, h2⟩
  have hent : entryStep cfg lv tm st b = longEntry cfg st b := by
    unfold entryStep
    rw [if_pos ⟨hopen, hexec, h1⟩, if_pos hlev]
  have hms : manageStep cfg tm (longEntry cfg st b) b =
      some (manageLong cfg tm (longEntry cfg st b) b b.c b.c
        (b.c - cfg.TRAIL_DISTANCE_POINTS)) := rfl
  unfold stepBar
  rw [if_pos hwin, hent, hms,
    manageLong_tp cfg tm (longEntry cfg st b) b b.c b.c
      (b.c - cfg.TRAIL_DISTANCE_POINTS) htp]
  rfl

/-- Witness for `entry_bar_also_managed` at the concrete data. -/
theorem entry_bar_also_managed_witness :
    session_times.trade_start ≤ exBar.ts ∧ exBar.ts ≤ session_times.trade_end ∧
    exLevels.long_level ≤ exBar.h ∧
    exBar.c + nqConfig.TAKE_PROFIT_POINTS ≤ exBar.h ∧
    (stepBar nqConfig exLevels session_times (initState "") exBar).map
        (fun r => (r.1.trade_executed, r.1.trade_open,
                   r.2.map (fun t => (t.exit_reason, t.exit_price)))) =
      some (true, false, some ("TP", exBar.c + nqConfig.TAKE_PROFIT_POINTS)) :=
  ⟨by norm_num [session_times, exBar, OPENING_RANGE_MINUTES],
   by norm_num [session_times, exBar, TRADING_WINDOW_MINUTES,
     OPENING_RANGE_MINUTES],
   by norm_num [exLevels, levelsOf, nqConfig, exOrb, exBar],
   by norm_num [exBar, nqConfig],
   entry_bar_also_managed nqConfig exLevels session_times (initState "") exBar
     rfl rfl
     (by norm_num [session_times, exBar, OPENING_RANGE_MINUTES])
     (by norm_num [session_times, exBar, TRADING_WINDOW_MINUTES,
       OPENING_RANGE_MINUTES])
     (by norm_num [exLevels, levelsOf, nqConfig, exOrb, exBar])
     (by norm_num [exBar, nqConfig])⟩

/-! ### Claim C2 -/

/-- Claim C2: while a trade is open, exit conditions are evaluated take-profit
first, then stop, then end-of-day; if both the take-profit condition and the
stop condition hold on the same bar, the emitted trade has reason `"TP"` (the
code's encoding of TakeProfit) and fill price `entry + takeProfit` for a long
and `entry - takeProfit` for a short. -/
theorem tp_priority (cfg : Config) (lv : Levels) (tm : Times) (st : TradeState)
    (b : Bar) (e w s : ℚ)
    (hopen : st.trade_open = true) (he : st.entry_price = some e)
    (hw : st.watermark_price = some w) (hs : st.stop_price = some s)
    (hts : b.ts ≤ tm.trade_end) :
    (st.direction = some "long" → e + cfg.TAKE_PROFIT_POINTS ≤ b.h → b.l ≤ s →
      (stepBar cfg lv tm st b).map
          (fun r => r.2.map (fun t => (t.exit_reason, t.exit_price))) =
        some (some ("TP", e + cfg.TAKE_PROFIT_POINTS))) ∧
    (st.direction = some "short" → b.l ≤ e - cfg.TAKE_PROFIT_POINTS → s ≤ b.h →
      (stepBar cfg lv tm st b).map
          (fun r => r.2.map (fun t => (t.exit_reason, t.exit_price))) =
        some (some ("TP", e - cfg.TAKE_PROFIT_POINTS))) := by
  have hwin : within b.ts tm.trade_start tm.trade_end ∨
      (st.trade_open = true ∧ b.ts ≤ tm.trade_end) := Or.inr ⟨hopen, hts⟩
  have hent : entryStep cfg lv tm st b = st :=
    entryStep_no_entry cfg lv tm st b (Or.inl hopen)
  constructor
  · intro hdl htp hstop
    unfold stepBar
    rw [if_pos hwin, hent]
    unfold manageStep
    rw [if_pos hopen, he]
    simp only []
    rw [if_pos hdl, hw, hs]
    simp only []
    rw [manageLong_tp cfg tm st b e w s htp]
    rfl
  · intro hds htp hstop
    have hndl : ¬st.direction = some "long" := by rw [hds]; decide
    unfold stepBar
    rw [if_pos hwin, hent]
    unfold manageStep
    rw [if_pos hopen, he]
    simp only []
    rw [if_neg hndl, if_pos hds, hw, hs]
    simp only []
    rw [manageShort_tp cfg tm st b e w s htp]
    rfl

/-- Witness for `tp_priority`: on `exBarBoth` (high 121, low 84) both the
take-profit level 120 and the stop 85 of `exOpenLong` are touched; the step
emits `"TP"` at 120. -/
theorem tp_priority_witness :
    exOpenLong.direction = some "long" ∧
    (100:ℚ) + nqConfig.TAKE_PROFIT_POINTS ≤ exBarBoth.h ∧
    exBarBoth.l ≤ (85:ℚ) ∧
    (stepBar nqConfig exLevels session_times exOpenLong exBarBoth).map
        (fun r => r.2.map (fun t => (t.exit_reason, t.exit_price))) =
      some (some ("TP", (100:ℚ) + nqConfig.TAKE_PROFIT_POINTS)) :=
  ⟨rfl, by norm_num [nqConfig, exBarBoth], by norm_num [exBarBoth],
   (tp_priority nqConfig exLevels session_times exOpenLong exBarBoth 100 100 85
      rfl rfl rfl rfl
      (by norm_num [session_times, exBarBoth, TRADING_WINDOW_MINUTES])).1 rfl
     (by norm_num [nqConfig, exBarBoth]) (by norm_num [exBarBoth])⟩

/-! ### Claim C3 -/

lemma manage_mono_long (cfg : Config) (tm : Times) (st0 : TradeState) (b : Bar)
    (st1 : TradeState) (ot : Option CompletedTrade) (s : ℚ)
    (h : manageStep cfg tm st0 b = some (st1, ot))
    (hex : st0.trade_executed = true) (hst : st0.stop_price = some s)
    (hdir : st0.trade_open = true → st0.direction = some "long") :
    st1.trade_executed = true ∧
    (st1.trade_open = true → st1.direction = some "long") ∧
    ∃ s1, st1.stop_price = some s1 ∧ s ≤ s1 := by
  rcases manageStep_rcases cfg tm st0 b st1 ot h with
    ⟨hp, -⟩ | ⟨e, w0, s0, hopen, hdl, hep, hwm, hsp, hp⟩ |
    ⟨e, w0, s0, hopen, hds, hep, hwm, hsp, hp⟩
  · injection hp with h1 h2
    subst h1
    exact ⟨hex, hdir, s, hst, le_refl s⟩
  · have hs0 : s0 = s := by
      have := hst.symm.trans hsp
      injection this with h0
      exact h0.symm
    subst hs0
    have h1 : st1 = (manageLong cfg tm st0 b e w0 s0).1 := congrArg Prod.fst hp
    rcases manageLong_split cfg tm st0 b e w0 s0 with ⟨t, hm⟩ | hm <;>
      rw [hm] at h1 <;> subst h1
    · refine ⟨hex, ?_, longStop2 cfg st0 e (longWm w0 b.h) s0, rfl,
        le_longStop2 cfg st0 e (longWm w0 b.h) s0⟩
      intro hco
      exact absurd hco (by simp [closeUpdate])
    · exact ⟨hex, fun _ => hdl, longStop2 cfg st0 e (longWm w0 b.h) s0, rfl,
        le_longStop2 cfg st0 e (longWm w0 b.h) s0⟩
  · exact absurd (hds.symm.trans (hdir hopen)) (by decide)

lemma manage_mono_short (cfg : Config) (tm : Times) (st0 : TradeState) (b : Bar)
    (st1 : TradeState) (ot : Option CompletedTrade) (s : ℚ)
    (h : manageStep cfg tm st0 b = some (st1, ot))
    (hex : st0.trade_executed = true) (hst : st0.stop_price = some s)
    (hdir : st0.trade_open = true → st0.direction = some "short") :
    st1.trade_executed = true ∧
    (st1.trade_open = true → st1.direction = some "short") ∧
    ∃ s1, st1.stop_price = some s1 ∧ s1 ≤ s := by
  rcases manageStep_rcases cfg tm st0 b st1 ot h with
    ⟨hp, -⟩ | ⟨e, w0, s0, hopen, hdl, hep, hwm, hsp, hp⟩ |
    ⟨e, w0, s0, hopen, hds, hep, hwm, hsp, hp⟩
  · injection hp with h1 h2
    subst h1
    exact ⟨hex, hdir, s, hst, le_refl s⟩
  · exact absurd (hdl.symm.trans (hdir hopen)) (by decide)
  · have hs0 : s0 = s := by
      have := hst.symm.trans hsp
      injection this with h0
      exact h0.symm
    subst hs0
    have h1 : st1 = (manageShort cfg tm st0 b e w0 s0).1 := congrArg Prod.fst hp
    rcases manageShort_split cfg tm st0 b e w0 s0 with ⟨t, hm⟩ | hm <;>
      rw [hm] at h1 <;> subst h1
    · refine ⟨hex, ?_, shortStop2 cfg st0 e (shortWm w0 b.l) s0, rfl,
        shortStop2_le cfg st0 e (shortWm w0 b.l) s0⟩
      intro hco
      exact absurd hco (by simp [closeUpdate])
    · exact ⟨hex, fun _ => hds, shortStop2 cfg st0 e (shortWm w0 b.l) s0, rfl,
        shortStop2_le cfg st0 e (shortWm w0 b.l) s0⟩

lemma processBars_mono_long (cfg : Config) (lv : Levels) (tm : Times) :
    ∀ (bars : List Bar) (st st2 : TradeState) (tr : List CompletedTrade) (s : ℚ),
      st.trade_executed = true → st.stop_price = some s →
      (st.trade_open = true → st.direction = some "long") →
      processBars cfg lv tm st bars = some (st2, tr) →
      st2.trade_executed = true ∧
      (st2.trade_open = true → st2.direction = some "long") ∧
      ∃ s2, st2.stop_price = some s2 ∧ s ≤ s2 := by
  intro bars
  induction bars with
  | nil =>
    intro st st2 tr s hex hst hdir h
    rw [processBars_nil] at h
    simp only [Option.some.injEq, Prod.mk.injEq] at h
    obtain ⟨h1, -⟩ := h
    subst h1
    exact ⟨hex, hdir, s, hst, le_refl s⟩
  | cons b bs ih =>
    intro st st2 tr s hex hst hdir h
    obtain ⟨st1, ot, ts2, hstep, hrec, rfl⟩ :=
      processBars_cons_elim cfg lv tm st b bs st2 tr h
    rcases stepBar_some_cases cfg lv tm st b st1 ot hstep with hp | hm
    · injection hp with h1 h2
      subst h1
      exact ih { st with last_processed_ts := some b.ts } st2 ts2 s hex hst
        hdir hrec
    · rw [entryStep_no_entry cfg lv tm st b (Or.inr hex)] at hm
      obtain ⟨hex1, hdir1, s1, hst1, hs1⟩ :=
        manage_mono_long cfg tm st b st1 ot s hm hex hst hdir
      obtain ⟨hex2, hdir2, s2, hst2, hs2⟩ := ih _ st2 ts2 s1 hex1 hst1 hdir1 hrec
      exact ⟨hex2, hdir2, s2, hst2, le_trans hs1 hs2⟩

lemma processBars_mono_short (cfg : Config) (lv : Levels) (tm : Times) :
    ∀ (bars : List Bar) (st st2 : TradeState) (tr : List CompletedTrade) (s : ℚ),
      st.trade_executed = true → st.stop_price = some s →
      (st.trade_open = true → st.direction = some "short") →
      processBars cfg lv tm st bars = some (st2, tr) →
      st2.trade_executed = true ∧
      (st2.trade_open = true → st2.direction = some "short") ∧
      ∃ s2, st2.stop_price = some s2 ∧ s2 ≤ s := by
  intro bars
  induction bars with
  | nil =>
    intro st st2 tr s hex hst hdir h
    rw [processBars_nil] at h
    simp only [Option.some.injEq, Prod.mk.injEq] at h
    obtain ⟨h1, -⟩ := h
    subst h1
    exact ⟨hex, hdir, s, hst, le_refl s⟩
  | cons b bs ih =>
    intro st st2 tr s hex hst hdir h
    obtain ⟨st1, ot, ts2, hstep, hrec, rfl⟩ :=
      processBars_cons_elim cfg lv tm st b bs st2 tr h
    rcases stepBar_some_cases cfg lv tm st b st1 ot hstep with hp | hm
    · injection hp with h1 h2
      subst h1
      exact ih { st with last_processed_ts := some b.ts } st2 ts2 s hex hst
        hdir hrec
    · rw [entryStep_no_entry cfg lv tm st b (Or.inr hex)] at hm
      obtain ⟨hex1, hdir1, s1, hst1, hs1⟩ :=
        manage_mono_short cfg tm st b st1 ot s hm hex hst hdir
      obtain ⟨hex2, hdir2, s2, hst2, hs2⟩ := ih _ st2 ts2 s1 hex1 hst1 hdir1 hrec
      exact ⟨hex2, hdir2, s2, hst2, le_trans hs2 hs1⟩

/-- Claim C3: for the lifetime of one open trade (and beyond, since the stop
field is never loosened after the close), the stop price is monotonically
non-decreasing for a long position and non-increasing for a short position,
across any sequence of processed bars. -/
theorem stop_monotone (cfg : Config) (lv : Levels) (tm : Times)
    (st : TradeState) (bars : List Bar) (st2 : TradeState)
    (tr : List CompletedTrade) (s : ℚ)
    (_hopen : st.trade_open = true) (hex : st.trade_executed = true)
    (hst : st.stop_price = some s)
    (h : processBars cfg lv tm st bars = some (st2, tr)) :
    (st.direction = some "long" →
      (st2.stop_price).elim False (fun s2 => s ≤ s2)) ∧
    (st.direction = some "short" →
      (st2.stop_price).elim False (fun s2 => s2 ≤ s)) := by
  constructor
  · intro hdl
    obtain ⟨-, -, s2, hst2, hs2⟩ :=
      processBars_mono_long cfg lv tm bars st st2 tr s hex hst (fun _ => hdl) h
    rw [hst2]
    exact hs2
  · intro hds
    obtain ⟨-, -, s2, hst2, hs2⟩ :=
      processBars_mono_short cfg lv tm bars st st2 tr s hex hst (fun _ => hds) h
    rw [hst2]
    exact hs2

/-- The state after `exOpenLong` processes the favorable bar `exBarHold`:
watermark rises to 110 and the trailing stop tightens from 85 to 95. -/
def exHeldState : TradeState :=
  { session_date := "", trade_executed := true, trade_open := true,
    direction := some "long", entry_time := some 600, entry_price := some 100,
    stop_price := some 95, watermark_price := some 110, be_triggered := false,
    last_processed_ts := some 610 }

lemma stepBar_exBarHold_eval :
    stepBar nqConfig exLevels session_times exOpenLong exBarHold =
      some (exHeldState, none) := by
  norm_num [stepBar, manageStep, entryStep, longEntry, manageLong, longFinish,
    longWm, longStop2, longBe2, longBeHit, closeUpdate, openUpdate,
    mkTradeLong, within, exOpenLong, exBarHold, exLevels, exOrb, levelsOf,
    nqConfig, session_times, OPENING_RANGE_MINUTES, TRADING_WINDOW_MINUTES,
    exHeldState]

lemma processBars_exBarHold_eval :
    processBars nqConfig exLevels session_times exOpenLong [exBarHold] =
      some (exHeldState, []) := by
  rw [processBars_cons, stepBar_exBarHold_eval]
  rfl

/-- Witness for `stop_monotone`: the concrete open long with stop 85 ends the
bar with stop 95 ≥ 85. -/
theorem stop_monotone_witness :
    exOpenLong.trade_open = true ∧ exOpenLong.trade_executed = true ∧
    exOpenLong.stop_price = some 85 ∧ exOpenLong.direction = some "long" ∧
    (exHeldState.stop_price).elim False (fun s2 => (85:ℚ) ≤ s2) :=
  ⟨rfl, rfl, rfl, rfl,
   (stop_monotone nqConfig exLevels session_times exOpenLong [exBarHold]
      exHeldState [] 85 rfl rfl rfl processBars_exBarHold_eval).1 rfl⟩

/-! ### Claim C4 -/

/-- Number of trades a session state can still emit: 1 while a trade is open
or before any entry, 0 once a trade has executed and closed. -/
def potential (st : TradeState) : ℕ :=
  if st.trade_open = true then 1 else if st.trade_executed = true then 0 else 1

lemma manage_potential (cfg : Config) (tm : Times) (st0 : TradeState) (b : Bar)
    (st1 : TradeState) (ot : Option CompletedTrade)
    (h : manageStep cfg tm st0 b = some (st1, ot))
    (hoe : st0.trade_open = true → st0.trade_executed = true) :
    (st1.trade_open = true → st1.trade_executed = true) ∧
    ot.toList.length + potential st1 ≤ potential st0 := by
  rcases manageStep_rcases cfg tm st0 b st1 ot h with
    ⟨hp, -⟩ | ⟨e, w0, s0, hopen, hdl, hep, hwm, hsp, hp⟩ |
    ⟨e, w0, s0, hopen, hds, hep, hwm, hsp, hp⟩
  · injection hp with h1 h2
    subst h1
    subst h2
    exact ⟨hoe, by simp [potential]⟩
  · have hex : st0.trade_executed = true := hoe hopen
    have h1 : st1 = (manageLong cfg tm st0 b e w0 s0).1 := congrArg Prod.fst hp
    have h2 : ot = (manageLong cfg tm st0 b e w0 s0).2 := congrArg Prod.snd hp
    rcases manageLong_split cfg tm st0 b e w0 s0 with ⟨t, hm⟩ | hm <;>
      rw [hm] at h1 h2 <;> subst h1 <;> subst h2
    · refine ⟨fun hco => absurd hco (by simp [closeUpdate]), ?_⟩
      simp [potential, closeUpdate, hopen, hex]
    · refine ⟨fun _ => hex, ?_⟩
      simp [potential, openUpdate, hopen]
  · have hex : st0.trade_executed = true := hoe hopen
    have h1 : st1 = (manageShort cfg tm st0 b e w0 s0).1 := congrArg Prod.fst hp
    have h2 : ot = (manageShort cfg tm st0 b e w0 s0).2 := congrArg Prod.snd hp
    rcases manageShort_split cfg tm st0 b e w0 s0 with ⟨t, hm⟩ | hm <;>
      rw [hm] at h1 h2 <;> subst h1 <;> subst h2
    · refine ⟨fun hco => absurd hco (by simp [closeUpdate]), ?_⟩
      simp [potential, closeUpdate, hopen, hex]
    · refine ⟨fun _ => hex, ?_⟩
      simp [potential, openUpdate, hopen]

lemma entry_potential (cfg : Config) (lv : Levels) (tm : Times)
    (st : TradeState) (b : Bar)
    (hoe : st.trade_open = true → st.trade_executed = true) :
    ((entryStep cfg lv tm st b).trade_open = true →
      (entryStep cfg lv tm st b).trade_executed = true) ∧
    potential (entryStep cfg lv tm st b) ≤ potential st := by
  rcases entryStep_cases cfg lv tm st b with he | ⟨hof, hef, he | he⟩
  · rw [he]; exact ⟨hoe, le_refl _⟩
  · rw [he]
    exact ⟨fun _ => rfl, by simp [potential, longEntry, hof, hef]⟩
  · rw [he]
    exact ⟨fun _ => rfl, by simp [potential, shortEntry, hof, hef]⟩

lemma step_potential (cfg : Config) (lv : Levels) (tm : Times)
    (st : TradeState) (b : Bar) (st1 : TradeState) (ot : Option CompletedTrade)
    (h : stepBar cfg lv tm st b = some (st1, ot))
    (hoe : st.trade_open = true → st.trade_executed = true) :
    (st1.trade_open = true → st1.trade_executed = true) ∧
    ot.toList.length + potential st1 ≤ potential st := by
  rcases stepBar_some_cases cfg lv tm st b st1 ot h with hp | hm
  · injection hp with h1 h2
    subst h1
    subst h2
    exact ⟨hoe, by simp [potential]⟩
  · obtain ⟨h1, h2⟩ := entry_potential cfg lv tm st b hoe
    obtain ⟨h3, h4⟩ :=
      manage_potential cfg tm (entryStep cfg lv tm st b) b st1 ot hm h1
    exact ⟨h3, le_trans h4 h2⟩

lemma processBars_potential (cfg : Config) (lv : Levels) (tm : Times) :
    ∀ (bars : List Bar) (st st2 : TradeState) (tr : List CompletedTrade),
      processBars cfg lv tm st bars = some (st2, tr) →
      (st.trade_open = true → st.trade_executed = true) →
      (st2.trade_open = true → st2.trade_executed = true) ∧
      tr.length + potential st2 ≤ potential st := by
  intro bars
  induction bars with
  | nil =>
    intro st st2 tr h hoe
    rw [processBars_nil] at h
    simp only [Option.some.injEq, Prod.mk.injEq] at h
    obtain ⟨h1, h2⟩ := h
    subst h1
    subst h2
    exact ⟨hoe, by simp⟩
  | cons b bs ih =>
    intro st st2 tr h hoe
    obtain ⟨st1, ot, ts2, hstep, hrec, rfl⟩ :=
      processBars_cons_elim cfg lv tm st b bs st2 tr h
    obtain ⟨hoe1, hp1⟩ := step_potential cfg lv tm st b st1 ot hstep hoe
    obtain ⟨hoe2, hp2⟩ := ih st1 st2 ts2 hrec hoe1
    refine ⟨hoe2, ?_⟩
    rw [List.length_append]
    omega

/-- Claim C4: from a fresh session state, any sequence of processed bars emits
at most one completed trade; and once the trade has executed and closed, any
further processing emits no trade and never reopens one. -/
theorem at_most_one_trade (cfg : Config) (lv : Levels) (tm : Times)
    (d : String) (bars : List Bar) (st2 : TradeState)
    (tr : List CompletedTrade)
    (h : processBars cfg lv tm (initState d) bars = some (st2, tr)) :
    tr.length ≤ 1 ∧
    (∀ (bars2 : List Bar) (st3 : TradeState) (tr2 : List CompletedTrade),
      processBars cfg lv tm st2 bars2 = some (st3, tr2) →
      tr.length + tr2.length ≤ 1) ∧
    (st2.trade_open = false → st2.trade_executed = true →
      ∀ (bars2 : List Bar) (st3 : TradeState) (tr2 : List CompletedTrade),
        processBars cfg lv tm st2 bars2 = some (st3, tr2) →
        tr2 = [] ∧ st3.trade_open = false) := by
  have hinit : (initState d).trade_open = true →
      (initState d).trade_executed = true := by
    intro hc
    exact absurd hc (by simp [initState])
  obtain ⟨hoe2, hp⟩ := processBars_potential cfg lv tm bars (initState d) st2 tr h hinit
  have hpi : potential (initState d) = 1 := rfl
  rw [hpi] at hp
  refine ⟨by omega, ?_, ?_⟩
  · intro bars2 st3 tr2 h2
    obtain ⟨-, hp2⟩ :=
      processBars_potential cfg lv tm bars2 st2 st3 tr2 h2 hoe2
    omega
  · intro hcl hex bars2 st3 tr2 h2
    obtain ⟨hoe3, hp2⟩ :=
      processBars_potential cfg lv tm bars2 st2 st3 tr2 h2 (fun _ => hex)
    have hp20 : potential st2 = 0 := by simp [potential, hcl, hex]
    rw [hp20] at hp2
    have htr2 : tr2.length = 0 := by omega
    have hps3 : potential st3 = 0 := by omega
    refine ⟨List.length_eq_zero.mp htr2, ?_⟩
    by_contra hop
    have hop2 : st3.trade_open = true := by
      revert hop
      cases st3.trade_open <;> simp
    simp [potential, hop2] at hps3

/-- The closed state after one more (skipped) bar: only the high-water mark
advances. -/
def exClosedState2 : TradeState :=
  { exClosedState with last_processed_ts := some 610 }

lemma stepBar_closed_eval :
    stepBar nqConfig exLevels session_times exClosedState exBarHold =
      some (exClosedState2, none) := by
  norm_num [stepBar, manageStep, entryStep, within, exClosedState,
    exClosedState2, exBarHold, session_times, OPENING_RANGE_MINUTES,
    TRADING_WINDOW_MINUTES]

lemma processBars_closed_eval :
    processBars nqConfig exLevels session_times exClosedState [exBarHold] =
      some (exClosedState2, []) := by
  rw [processBars_cons, stepBar_closed_eval]
  rfl

/-- Witness for `at_most_one_trade`: the concrete single-bar session emits one
trade, and processing one more bar from the closed state emits none and keeps
the trade closed. -/
theorem at_most_one_trade_witness :
    ([exTrade] : List CompletedTrade).length ≤ 1 ∧
    ([exTrade] : List CompletedTrade).length +
      ([] : List CompletedTrade).length ≤ 1 ∧
    ([] : List CompletedTrade) = [] ∧ exClosedState2.trade_open = false :=
  ⟨(at_most_one_trade nqConfig exLevels session_times "" [exBar] exClosedState
      [exTrade] processBars_exBar_eval).1,
   (at_most_one_trade nqConfig exLevels session_times "" [exBar] exClosedState
      [exTrade] processBars_exBar_eval).2.1 [exBarHold] exClosedState2 []
     processBars_closed_eval,
   ((at_most_one_trade nqConfig exLevels session_times "" [exBar] exClosedState
       [exTrade] processBars_exBar_eval).2.2 rfl rfl [exBarHold] exClosedState2
     [] processBars_closed_eval).1,
   ((at_most_one_trade nqConfig exLevels session_times "" [exBar] exClosedState
       [exTrade] processBars_exBar_eval).2.2 rfl rfl [exBarHold] exClosedState2
     [] processBars_closed_eval).2⟩

/-! ### Claim C6 -/

/-- The invariant that actually holds: the watermark is set exactly when a
trade has ever executed this session (it is not cleared on close). -/
def watermarkInv (st : TradeState) : Prop :=
  st.watermark_price.isSome = st.trade_executed

lemma entry_watermarkInv (cfg : Config) (lv : Levels) (tm : Times)
    (st : TradeState) (b : Bar) (hinv : watermarkInv st) :
    watermarkInv (entryStep cfg lv tm st b) := by
  rcases entryStep_cases cfg lv tm st b with he | ⟨hof, hef, he | he⟩
  · rw [he]; exact hinv
  · rw [he]; rfl
  · rw [he]; rfl

lemma manage_watermarkInv (cfg : Config) (tm : Times) (st0 : TradeState)
    (b : Bar) (st1 : TradeState) (ot : Option CompletedTrade)
    (h : manageStep cfg tm st0 b = some (st1, ot))
    (hinv : watermarkInv st0) : watermarkInv st1 := by
  rcases manageStep_rcases cfg tm st0 b st1 ot h with
    ⟨hp, -⟩ | ⟨e, w0, s0, hopen, hdl, hep, hwm, hsp, hp⟩ |
    ⟨e, w0, s0, hopen, hds, hep, hwm, hsp, hp⟩
  · injection hp with h1 h2
    subst h1
    exact hinv
  · have hex : st0.trade_executed = true := by
      rw [← hinv, hwm]
      rfl
    have h1 : st1 = (manageLong cfg tm st0 b e w0 s0).1 := congrArg Prod.fst hp
    rcases manageLong_split cfg tm st0 b e w0 s0 with ⟨t, hm⟩ | hm <;>
      rw [hm] at h1 <;> subst h1
    · simp [watermarkInv, closeUpdate, hex]
    · simp [watermarkInv, openUpdate, hex]
  · have hex : st0.trade_executed = true := by
      rw [← hinv, hwm]
      rfl
    have h1 : st1 = (manageShort cfg tm st0 b e w0 s0).1 := congrArg Prod.fst hp
    rcases manageShort_split cfg tm st0 b e w0 s0 with ⟨t, hm⟩ | hm <;>
      rw [hm] at h1 <;> subst h1
    · simp [watermarkInv, closeUpdate, hex]
    · simp [watermarkInv, openUpdate, hex]

lemma step_watermarkInv (cfg : Config) (lv : Levels) (tm : Times)
    (st : TradeState) (b : Bar) (st1 : TradeState) (ot : Option CompletedTrade)
    (h : stepBar cfg lv tm st b = some (st1, ot))
    (hinv : watermarkInv st) : watermarkInv st1 := by
  rcases stepBar_some_cases cfg lv tm st b st1 ot h with hp | hm
  · injection hp with h1 h2
    subst h1
    exact hinv
  · exact manage_watermarkInv cfg tm (entryStep cfg lv tm st b) b st1 ot hm
      (entry_watermarkInv cfg lv tm st b hinv)

lemma processBars_watermarkInv (cfg : Config) (lv : Levels) (tm : Times) :
    ∀ (bars : List Bar) (st st2 : TradeState) (tr : List CompletedTrade),
      processBars cfg lv tm st bars = some (st2, tr) →
      watermarkInv st → watermarkInv st2 := by
  intro bars
  induction bars with
  | nil =>
    intro st st2 tr h hinv
    rw [processBars_nil] at h
    simp only [Option.some.injEq, Prod.mk.injEq] at h
    obtain ⟨h1, -⟩ := h
    subst h1
    exact hinv
  | cons b bs ih =>
    intro st st2 tr h hinv
    obtain ⟨st1, ot, ts2, hstep, hrec, rfl⟩ :=
      processBars_cons_elim cfg lv tm st b bs st2 tr h
    exact ih st1 st2 ts2 hrec
      (step_watermarkInv cfg lv tm st b st1 ot hstep hinv)

/-- Claim C6 is false as stated: after the concrete one-bar session that opens
and closes a trade, the state has `trade_open = false` but `watermark_price`
still set (to 130) — closing a trade clears `direction` but not the
watermark. -/
theorem watermark_after_close_cex :
    (processBars nqConfig exLevels session_times (initState "") [exBar]).map
        (fun r => (r.1.trade_open, r.1.watermark_price)) =
      some (false, some 130) := by
  rw [processBars_exBar_eval]
  rfl

/-- Claim C6 (amended): in every state reachable from a fresh session state,
`watermark_price` is defined if and only if `trade_executed` — it is set at
entry and never cleared, so after a trade closes it remains defined. -/
theorem watermark_iff_executed (cfg : Config) (lv : Levels) (tm : Times)
    (d : String) (st st2 : TradeState) (bars : List Bar)
    (tr : List CompletedTrade) :
    watermarkInv (initState d) ∧
    (watermarkInv st → processBars cfg lv tm st bars = some (st2, tr) →
      watermarkInv st2) :=
  ⟨rfl, fun hinv h => processBars_watermarkInv cfg lv tm bars st st2 tr h hinv⟩

/-- Witness for `watermark_iff_executed` on the concrete one-bar session. -/
theorem watermark_iff_executed_witness :
    watermarkInv (initState "") ∧ watermarkInv exClosedState :=
  ⟨(watermark_iff_executed nqConfig exLevels session_times "" (initState "")
      exClosedState [exBar] [exTrade]).1,
   (watermark_iff_executed nqConfig exLevels session_times "" (initState "")
      exClosedState [exBar] [exTrade]).2 rfl processBars_exBar_eval⟩

/-! ### Claim C7 -/

lemma manageLong_reason (cfg : Config) (tm : Times) (st0 : TradeState)
    (b : Bar) (e w0 s0 : ℚ) (t : CompletedTrade)
    (h : (manageLong cfg tm st0 b e w0 s0).2 = some t) :
    t.exit_reason = "TP" ∨ t.exit_reason = "TrailingStop" ∨
    t.exit_reason = "EOD" := by
  unfold manageLong longFinish at h
  split_ifs at h
  · simp only [Option.some.injEq] at h
    rw [← h]
    exact Or.inl rfl
  · simp only [Option.some.injEq] at h
    rw [← h]
    exact Or.inr (Or.inl rfl)
  · simp only [Option.some.injEq] at h
    rw [← h]
    exact Or.inr (Or.inr rfl)

lemma manageShort_reason (cfg : Config) (tm : Times) (st0 : TradeState)
    (b : Bar) (e w0 s0 : ℚ) (t : CompletedTrade)
    (h : (manageShort cfg tm st0 b e w0 s0).2 = some t) :
    t.exit_reason = "TP" ∨ t.exit_reason = "TrailingStop" ∨
    t.exit_reason = "EOD" := by
  unfold manageShort shortFinish at h
  split_ifs at h
  · simp only [Option.some.injEq] at h
    rw [← h]
    exact Or.inl rfl
  · simp only [Option.some.injEq] at h
    rw [← h]
    exact Or.inr (Or.inl rfl)
  · simp only [Option.some.injEq] at h
    rw [← h]
    exact Or.inr (Or.inr rfl)

lemma step_reason (cfg : Config) (lv : Levels) (tm : Times) (st : TradeState)
    (b : Bar) (st1 : TradeState) (t : CompletedTrade)
    (h : stepBar cfg lv tm st b = some (st1, some t)) :
    t.exit_reason = "TP" ∨ t.exit_reason = "TrailingStop" ∨
    t.exit_reason = "EOD" := by
  rcases stepBar_some_cases cfg lv tm st b st1 (some t) h with hp | hm
  · injection hp with h1 h2
    cases h2
  · rcases manageStep_rcases cfg tm (entryStep cfg lv tm st b) b st1 (some t)
      hm with ⟨hp, -⟩ | ⟨e, w0, s0, -, -, -, -, -, hp⟩ |
      ⟨e, w0, s0, -, -, -, -, -, hp⟩
    · injection hp with h1 h2
      cases h2
    · exact manageLong_reason cfg tm (entryStep cfg lv tm st b) b e w0 s0 t
        (congrArg Prod.snd hp).symm
    · exact manageShort_reason cfg tm (entryStep cfg lv tm st b) b e w0 s0 t
        (congrArg Prod.snd hp).symm

lemma processBars_reason (cfg : Config) (lv : Levels) (tm : Times) :
    ∀ (bars : List Bar) (st st2 : TradeState) (tr : List CompletedTrade),
      processBars cfg lv tm st bars = some (st2, tr) →
      ∀ t ∈ tr, t.exit_reason = "TP" ∨ t.exit_reason = "TrailingStop" ∨
        t.exit_reason = "EOD" := by
  intro bars
  induction bars with
  | nil =>
    intro st st2 tr h t ht
    rw [processBars_nil] at h
    simp only [Option.some.injEq, Prod.mk.injEq] at h
    obtain ⟨-, h2⟩ := h
    subst h2
    exact absurd ht (List.not_mem_nil t)
  | cons b bs ih =>
    intro st st2 tr h t ht
    obtain ⟨st1, ot, ts2, hstep, hrec, rfl⟩ :=
      processBars_cons_elim cfg lv tm st b bs st2 tr h
    rw [List.mem_append] at ht
    rcases ht with ht | ht
    · have hot : ot = some t := by
        cases ot with
        | none => cases ht
        | some a =>
          simp only [Option.toList, List.mem_singleton] at ht
          rw [ht]
      rw [hot] at hstep
      exact step_reason cfg lv tm st b st1 t hstep
    · exact ih st1 st2 ts2 hrec t ht

/-- Claim C7: every emitted completed trade carries an exit reason among the
three encodings `"TP"` (TakeProfit), `"TrailingStop"` and `"EOD"` (EndOfDay);
no other reason string is ever recorded. -/
theorem exit_reason_mem (cfg : Config) (lv : Levels) (tm : Times)
    (st : TradeState) (bars : List Bar) (st2 : TradeState)
    (tr : List CompletedTrade)
    (h : processBars cfg lv tm st bars = some (st2, tr)) :
    ∀ t ∈ tr, t.exit_reason = "TP" ∨ t.exit_reason = "TrailingStop" ∨
      t.exit_reason = "EOD" :=
  processBars_reason cfg lv tm bars st st2 tr h

/-- Witness for `exit_reason_mem` at the concrete emitted trade. -/
theorem exit_reason_mem_witness :
    exTrade.exit_reason = "TP" ∨ exTrade.exit_reason = "TrailingStop" ∨
    exTrade.exit_reason = "EOD" :=
  exit_reason_mem nqConfig exLevels session_times (initState "") [exBar]
    exClosedState [exTrade] processBars_exBar_eval exTrade (by simp)

/-! ### Claim C9 -/

/-- Well-formedness of an open position: a direction is set (long or short)
and the entry time, entry price, stop and watermark are all defined. -/
def WF (st : TradeState) : Prop :=
  st.trade_open = true →
    (st.direction = some "long" ∨ st.direction = some "short") ∧
    st.entry_time.isSome = true ∧ st.entry_price.isSome = true ∧
    st.stop_price.isSome = true ∧ st.watermark_price.isSome = true

lemma entry_WF (cfg : Config) (lv : Levels) (tm : Times) (st : TradeState)
    (b : Bar) (hwf : WF st) : WF (entryStep cfg lv tm st b) := by
  rcases entryStep_cases cfg lv tm st b with he | ⟨hof, hef, he | he⟩
  · rw [he]; exact hwf
  · rw [he]
    intro hop
    exact ⟨Or.inl rfl, rfl, rfl, rfl, rfl⟩
  · rw [he]
    intro hop
    exact ⟨Or.inr rfl, rfl, rfl, rfl, rfl⟩

lemma manageLong_WF (cfg : Config) (tm : Times) (st0 : TradeState) (b : Bar)
    (e w0 s0 : ℚ) (hdl : st0.direction = some "long")
    (het : st0.entry_time.isSome = true) (hep : st0.entry_price.isSome = true) :
    WF (manageLong cfg tm st0 b e w0 s0).1 := by
  rcases manageLong_split cfg tm st0 b e w0 s0 with ⟨t, hm⟩ | hm <;> rw [hm]
  · intro hop
    exact absurd hop (by simp [closeUpdate])
  · intro hop
    exact ⟨Or.inl hdl, het, hep, rfl, rfl⟩

lemma manageShort_WF (cfg : Config) (tm : Times) (st0 : TradeState) (b : Bar)
    (e w0 s0 : ℚ) (hds : st0.direction = some "short")
    (het : st0.entry_time.isSome = true) (hep : st0.entry_price.isSome = true) :
    WF (manageShort cfg tm st0 b e w0 s0).1 := by
  rcases manageShort_split cfg tm st0 b e w0 s0 with ⟨t, hm⟩ | hm <;> rw [hm]
  · intro hop
    exact absurd hop (by simp [closeUpdate])
  · intro hop
    exact ⟨Or.inr hds, het, hep, rfl, rfl⟩

lemma manage_total (cfg : Config) (tm : Times) (st0 : TradeState) (b : Bar)
    (hwf : WF st0) :
    ∃ st1 ot, manageStep cfg tm st0 b = some (st1, ot) ∧ WF st1 := by
  by_cases hopen : st0.trade_open = true
  · obtain ⟨hdir, het, hep, hsp, hwm⟩ := hwf hopen
    obtain ⟨e, he⟩ := Option.isSome_iff_exists.mp hep
    obtain ⟨w0, hw⟩ := Option.isSome_iff_exists.mp hwm
    obtain ⟨s0, hs⟩ := Option.isSome_iff_exists.mp hsp
    rcases hdir with hdl | hds
    · refine ⟨(manageLong cfg tm st0 b e w0 s0).1,
        (manageLong cfg tm st0 b e w0 s0).2, ?_,
        manageLong_WF cfg tm st0 b e w0 s0 hdl het hep⟩
      unfold manageStep
      rw [if_pos hopen, he]
      simp only []
      rw [if_pos hdl, hw, hs]
    · have hndl : ¬st0.direction = some "long" := by rw [hds]; decide
      refine ⟨(manageShort cfg tm st0 b e w0 s0).1,
        (manageShort cfg tm st0 b e w0 s0).2, ?_,
        manageShort_WF cfg tm st0 b e w0 s0 hds het hep⟩
      unfold manageStep
      rw [if_pos hopen, he]
      simp only []
      rw [if_neg hndl, if_pos hds, hw, hs]
  · refine ⟨{ st0 with last_processed_ts := some b.ts }, none, ?_, ?_⟩
    · unfold manageStep
      rw [if_neg hopen]
    · intro hop
      exact absurd hop hopen

lemma step_total (cfg : Config) (lv : Levels) (tm : Times) (st : TradeState)
    (b : Bar) (hwf : WF st) :
    ∃ st1 ot, stepBar cfg lv tm st b = some (st1, ot) ∧ WF st1 := by
  unfold stepBar
  split_ifs with hw
  · exact manage_total cfg tm (entryStep cfg lv tm st b) b
      (entry_WF cfg lv tm st b hwf)
  · exact ⟨{ st with last_processed_ts := some b.ts }, none, rfl,
      fun hop => hwf hop⟩

lemma processBars_WF (cfg : Config) (lv : Levels) (tm : Times) :
    ∀ (bars : List Bar) (st : TradeState), WF st →
      ∃ st2 tr, processBars cfg lv tm st bars = some (st2, tr) ∧ WF st2 := by
  intro bars
  induction bars with
  | nil =>
    intro st hwf
    exact ⟨st, [], rfl, hwf⟩
  | cons b bs ih =>
    intro st hwf
    obtain ⟨st1, ot, hstep, hwf1⟩ := step_total cfg lv tm st b hwf
    obtain ⟨st2, tr, hrec, hwf2⟩ := ih st1 hwf1
    refine ⟨st2, ot.toList ++ tr, ?_, hwf2⟩
    rw [processBars_cons, hstep]
    simp only [hrec]

/-- Claim C9: from a fresh session state, well-formedness is invariant: when a
trade is open, the direction is long or short, and the entry time, entry
price, stop price and watermark are all defined; consequently the management
branch never reads an undefined field (bar processing from a well-formed state
always succeeds, and preserves well-formedness). -/
theorem wf_reachable (cfg : Config) (lv : Levels) (tm : Times) (d : String)
    (st : TradeState) (bars : List Bar) :
    WF (initState d) ∧
    (WF st →
      (processBars cfg lv tm st bars).elim False (fun r => WF r.1)) := by
  constructor
  · intro hop
    exact absurd hop (by simp [initState])
  · intro hwf
    obtain ⟨st2, tr, h, hwf2⟩ := processBars_WF cfg lv tm bars st hwf
    rw [h]
    exact hwf2

/-- Witness for `wf_reachable` on a concrete open long and bar. -/
theorem wf_reachable_witness :
    WF (initState "") ∧
    (processBars nqConfig exLevels session_times exOpenLong [exBarHold]).elim
      False (fun r => WF r.1) :=
  ⟨(wf_reachable nqConfig exLevels session_times "" exOpenLong [exBarHold]).1,
   (wf_reachable nqConfig exLevels session_times "" exOpenLong [exBarHold]).2
     (fun _ => ⟨Or.inl rfl, rfl, rfl, rfl, rfl⟩)⟩

/-! ### Claim C5 -/

/-- Claim C5: with a parseable `last_processed_ts`, re-running the processing
step over a bar set containing no bar strictly newer than it changes nothing:
the state is returned unchanged and no trade is emitted. -/
theorem advance_idempotent (cfg : Config) (lv : Levels) (tm : Times)
    (st : TradeState) (bars : List Bar) (t : ℤ)
    (hlast : st.last_processed_ts = some t)
    (hold : ∀ b ∈ bars, b.ts ≤ t) :
    advance cfg lv tm st bars = some (st, []) := by
  have hsel : selectBars tm st bars = bars.filter (fun b => decide (t < b.ts)) := by
    unfold selectBars
    rw [hlast]
  have hfil : bars.filter (fun b => decide (t < b.ts)) = [] := by
    rw [List.filter_eq_nil_iff]
    intro b hb
    simp only [decide_eq_true_eq, not_lt]
    exact hold b hb
  unfold advance
  rw [hsel, hfil]
  rfl

/-- Witness for `advance_idempotent`: `exOpenLong` has already processed up to
timestamp 600 and the only supplied bar has timestamp 600. -/
theorem advance_idempotent_witness :
    exOpenLong.last_processed_ts = some 600 ∧ (∀ b ∈ [exBar], b.ts ≤ 600) ∧
    advance nqConfig exLevels session_times exOpenLong [exBar] =
      some (exOpenLong, []) :=
  ⟨rfl, by decide,
   advance_idempotent nqConfig exLevels session_times exOpenLong [exBar] 600
     rfl (by decide)⟩

/-! ### Claim C8 -/

/-- Claim C8 is false as stated ("no files mutated"): on a weekend run the
snapshot file is still written — the effect list is the single
`write_latest "inactive" "weekend"`, which is not the empty effect list. -/
theorem weekend_writes_latest_cex :
    runMain nqConfig session_times 5 [exBar] (initState "") =
      some [Effect.write_latest "inactive" "weekend"] ∧
    some [Effect.write_latest "inactive" "weekend"] ≠
      (some ([] : List Effect)) := by
  refine ⟨rfl, ?_⟩
  decide

/-- Claim C8 (amended): when the session date's weekday is Saturday (5) or
Sunday (6), the run performs exactly one effect — writing the snapshot with
status `inactive`, reason `weekend` — so no bar processing occurs, no
`SessionState` is mutated or saved, and no state/trade-log/summary/intraday
file is written. -/
theorem weekend_inactive (cfg : Config) (tm : Times) (w : ℤ) (bars : List Bar)
    (st : TradeState) (hw : w = 5 ∨ w = 6) :
    runMain cfg tm w bars st = some [Effect.write_latest "inactive" "weekend"] := by
  have h4 : (4:ℤ) < w := by rcases hw with rfl | rfl <;> norm_num
  unfold runMain
  rw [if_pos h4]

/-- Witness for `weekend_inactive` on a Saturday. -/
theorem weekend_inactive_witness :
    ((5:ℤ) = 5 ∨ (5:ℤ) = 6) ∧
    runMain nqConfig session_times 5 [exBar] (initState "") =
      some [Effect.write_latest "inactive" "weekend"] :=
  ⟨Or.inl rfl,
   weekend_inactive nqConfig session_times 5 [exBar] (initState "") (Or.inl rfl)⟩

/-! ### Claim C10 -/

/-- Claim C10: a completed trade is counted as a win in the rolling summary
iff its `pnl_points` is strictly positive; a trade with exactly zero
`pnl_points` gets `win = 0` and contributes as a loss to the aggregate
winrate. -/
theorem win_iff_pos_pnl (t : CompletedTrade) :
    ((summary_row t).win = 1 ↔ 0 < t.pnl_points) ∧
    (t.pnl_points = 0 →
      (summary_row t).win = 0 ∧ winrate [summary_row t] = some 0) := by
  constructor
  · unfold summary_row
    by_cases h : 0 < t.pnl_points
    · simp [h]
    · simp [h]
  · intro h0
    have hwz : (summary_row t).win = 0 := by
      unfold summary_row
      rw [if_neg (by rw [h0]; exact lt_irrefl (0:ℚ))]
    refine ⟨hwz, ?_⟩
    unfold winrate
    rw [if_neg (by simp)]
    simp [hwz]

/-- Witness for `win_iff_pos_pnl` at a zero-P&L trade (a breakeven-stop exit
at the entry price). -/
theorem win_iff_pos_pnl_witness :
    exTradeZero.pnl_points = 0 ∧ (summary_row exTradeZero).win = 0 ∧
    winrate [summary_row exTradeZero] = some 0 :=
  ⟨rfl, ((win_iff_pos_pnl exTradeZero).2 rfl).1,
   ((win_iff_pos_pnl exTradeZero).2 rfl).2⟩

end OrbNq
